import Mathlib

set_option autoImplicit false

/-!
Verification of the structured log enrichment layer of the edot-k8s demo
application (`src/app/src/backend/main.py` and `src/app/src/frontend/main.py`).

Python strings are modelled as `List Char`; Python dicts are modelled as
association lists in insertion order (a dict assignment replaces the value of
an existing key in place and appends a fresh key at the end).
-/

/-- The `List Char` model of a Python string literal. -/
def chars (s : String) : List Char := s.data

/-- The ASCII whitespace characters stripped by Python's `str.strip()`
(restricted to the ASCII range, which is all this configuration format uses). -/
def isPySpace (c : Char) : Bool :=
  c == ' ' || c == '\t' || c == '\n' || c == '\r' || c == '\x0B' || c == '\x0C'

/-- Drop leading whitespace (`str.lstrip()`). -/
def lstrip (s : List Char) : List Char := s.dropWhile isPySpace

/-- Drop trailing whitespace (`str.rstrip()`). -/
def rstrip (s : List Char) : List Char := (s.reverse.dropWhile isPySpace).reverse

/-- Python's `str.strip()`: drop leading and trailing whitespace. -/
def strip (s : List Char) : List Char := rstrip (lstrip s)

/-- Python's `str.split(sep)` for a one-character separator: `"".split(",")`
is `[""]`, and every separator occurrence produces a boundary. -/
def splitOnChar (sep : Char) : List Char → List (List Char)
  | [] => [[]]
  | x :: xs =>
    if x == sep then [] :: splitOnChar sep xs
    else
      match splitOnChar sep xs with
      | [] => [[x]]
      | y :: ys => (x :: y) :: ys

/-- Python's `s.split(c, 1)` when `c` occurs in `s`: the part before the
first occurrence and the part after it; `none` when `c` does not occur. -/
def splitFirst (c : Char) : List Char → Option (List Char × List Char)
  | [] => none
  | x :: xs =>
    if x == c then some ([], xs)
    else
      match splitFirst c xs with
      | none => none
      | some (a, b) => some (x :: a, b)

/-- Python's `c in s` membership test on strings, for a one-character needle. -/
def containsChar (c : Char) (s : List Char) : Bool := s.any (fun d => d == c)

/-- Python dict assignment `d[k] = v` on an insertion-ordered association
list: an existing key keeps its position and gets the new value ("later
duplicate keys overwrite earlier ones"); a fresh key is appended. -/
def dictInsert (d : List (List Char × List Char)) (k v : List Char) :
    List (List Char × List Char) :=
  if d.any (fun p => p.1 == k) then
    d.map (fun p => if p.1 == k then (p.1, v) else p)
  else d ++ [(k, v)]

namespace backend

/-- Loop body of `parse_resource_attributes`
(src/app/src/backend/main.py, lines 65-70): strip the segment, skip it when
empty or without `=`, otherwise split at the first `=` and insert the
stripped key/value pair. -/
def parseStep (attrs : List (List Char × List Char)) (part : List Char) :
    List (List Char × List Char) :=
  let p := strip part
  if p.isEmpty || !containsChar '=' p then attrs
  else
    match splitFirst '=' p with
    | none => attrs
    | some (key, value) => dictInsert attrs (strip key) (strip value)

/-- The function `parse_resource_attributes` (src/app/src/backend/main.py, lines 61-71):
empty input gives the empty dict; otherwise fold the loop body over the
comma-separated segments. -/
def parse_resource_attributes (raw : List Char) : List (List Char × List Char) :=
  if raw.isEmpty then []
  else (splitOnChar ',' raw).foldl parseStep []

end backend

namespace frontend

/-- Loop body of `parse_resource_attributes`
(src/app/src/frontend/main.py, lines 63-68). -/
def parseStep (attrs : List (List Char × List Char)) (part : List Char) :
    List (List Char × List Char) :=
  let p := strip part
  if p.isEmpty || !containsChar '=' p then attrs
  else
    match splitFirst '=' p with
    | none => attrs
    | some (key, value) => dictInsert attrs (strip key) (strip value)

/-- The function `parse_resource_attributes` (src/app/src/frontend/main.py, lines 59-69). -/
def parse_resource_attributes (raw : List Char) : List (List Char × List Char) :=
  if raw.isEmpty then []
  else (splitOnChar ',' raw).foldl parseStep []

end frontend

/-- Per-segment behaviour exactly as §4.1 of the spec words it: trim the
segment, skip it when empty, skip it when it has no `=` (the failing
`splitFirst`), otherwise split at the first `=`, trim both sides, and let a
later duplicate key overwrite an earlier one. -/
def specStep (acc : List (List Char × List Char)) (seg : List Char) :
    List (List Char × List Char) :=
  let s := strip seg
  if s.isEmpty then acc
  else
    match splitFirst '=' s with
    | none => acc
    | some (k, v) => dictInsert acc (strip k) (strip v)

/-- The resource-attribute parser as the spec describes it (§4.1): split the
configuration string on `,` and process every segment with `specStep`. -/
def parse_spec (raw : List Char) : List (List Char × List Char) :=
  (splitOnChar ',' raw).foldl specStep []

theorem splitFirst_eq_none_iff (c : Char) (s : List Char) :
    splitFirst c s = none ↔ containsChar c s = false := by
  induction s with
  | nil => simp [splitFirst, containsChar]
  | cons x xs ih =>
    by_cases h : x == c
    · simp [splitFirst, containsChar, h]
    · have hx : (x == c) = false := by simpa using h
      simp only [splitFirst, containsChar, List.any_cons, hx, Bool.false_or,
        Bool.false_eq_true, if_false]
      cases hs : splitFirst c xs with
      | none =>
        simp only [hs, true_iff]
        exact ih.mp hs
      | some p =>
        have hne : ¬ containsChar c xs = false := fun hf => by
          rw [ih.mpr hf] at hs
          exact Option.noConfusion hs
        simp only [hs]
        constructor
        · intro habs
          exact Option.noConfusion habs
        · intro hf
          exact absurd hf hne

theorem parseStep_eq_specStep : backend.parseStep = specStep := by
  funext acc seg
  unfold backend.parseStep specStep
  by_cases he : (strip seg).isEmpty
  · simp [he]
  · simp only [he, Bool.false_or]
    by_cases hc : containsChar '=' (strip seg)
    · simp [hc]
    · have hn : splitFirst '=' (strip seg) = none :=
        (splitFirst_eq_none_iff '=' (strip seg)).mpr (by simpa using hc)
      simp [hc, hn]

theorem parse_eq_parse_spec (raw : List Char) :
    backend.parse_resource_attributes raw = parse_spec raw := by
  unfold backend.parse_resource_attributes parse_spec
  by_cases h : raw.isEmpty
  · have : raw = [] := by cases raw <;> simp_all
    subst this
    simp [splitOnChar, specStep, strip, lstrip, rstrip]
  · simp [h, parseStep_eq_specStep]

/-- C4: `parse_resource_attributes` behaves exactly as specified: it agrees
with the spec's segment-by-segment description (`parse_spec`) on every input,
and on the concrete examples it returns `{"a": "1", "b": "2"}` for
`"a=1,b=2"`, `{"x": ""}` for `"bad,,x="`, keeps `=` inside values
(`"k=a=b"` gives `{"k": "a=b"}`), and lets a later duplicate key overwrite an
earlier one (`"a=1,a=2"` gives `{"a": "2"}`). -/
theorem c4_parse_behavior :
    (∀ raw, backend.parse_resource_attributes raw = parse_spec raw)
    ∧ backend.parse_resource_attributes (chars "a=1,b=2")
        = [(chars "a", chars "1"), (chars "b", chars "2")]
    ∧ backend.parse_resource_attributes (chars "bad,,x=") = [(chars "x", [])]
    ∧ backend.parse_resource_attributes (chars "k=a=b") = [(chars "k", chars "a=b")]
    ∧ backend.parse_resource_attributes (chars "a=1,a=2") = [(chars "a", chars "2")] :=
  ⟨parse_eq_parse_spec, by decide, by decide, by decide, by decide⟩

theorem dictInsert_length (d : List (List Char × List Char)) (k v : List Char) :
    (dictInsert d k v).length ≤ d.length + 1 := by
  unfold dictInsert
  by_cases h : d.any (fun p => p.1 == k) <;> simp [h]

theorem parseStep_length (acc : List (List Char × List Char)) (part : List Char) :
    (backend.parseStep acc part).length ≤ acc.length + 1 := by
  unfold backend.parseStep
  by_cases h : (strip part).isEmpty || !containsChar '=' (strip part)
  · simp [h]
  · simp only [h, Bool.false_eq_true, if_false]
    cases hs : splitFirst '=' (strip part) with
    | none => simp
    | some p => exact dictInsert_length _ _ _

theorem foldl_parseStep_length (l : List (List Char))
    (acc : List (List Char × List Char)) :
    (l.foldl backend.parseStep acc).length ≤ acc.length + l.length := by
  induction l generalizing acc with
  | nil => simp
  | cons x xs ih =>
    calc (List.foldl backend.parseStep (backend.parseStep acc x) xs).length
        ≤ (backend.parseStep acc x).length + xs.length := ih _
      _ ≤ acc.length + 1 + xs.length :=
          Nat.add_le_add_right (parseStep_length acc x) _
      _ = acc.length + (x :: xs).length := by simp [Nat.add_assoc, Nat.add_comm 1]

/-- C6: the parser is a total function (it returns a plain mapping, never an
exception or error value), and malformed input only degrades the result: the
mapping never has more entries than the input has comma-separated segments. -/
theorem c6_parse_total_degrades (raw : List Char) :
    (backend.parse_resource_attributes raw).length ≤ (splitOnChar ',' raw).length := by
  unfold backend.parse_resource_attributes
  by_cases h : raw.isEmpty
  · have : raw = [] := by cases raw <;> simp_all
    subst this
    simp [splitOnChar]
  · simpa [h] using foldl_parseStep_length (splitOnChar ',' raw) []

/-- C10: the backend's and the frontend's copies of
`parse_resource_attributes` are extensionally equal. -/
theorem c10_parsers_agree :
    ∀ raw, backend.parse_resource_attributes raw = frontend.parse_resource_attributes raw :=
  fun _ => rfl

theorem dropWhile_self (p : Char → Bool) (l : List Char) :
    List.dropWhile p (List.dropWhile p l) = List.dropWhile p l := by
  induction l with
  | nil => simp
  | cons x xs ih =>
    by_cases h : p x
    · simp [List.dropWhile_cons, h, ih]
    · simp [List.dropWhile_cons, h]

theorem rstrip_cons (c : Char) (v : List Char) :
    rstrip (c :: v) =
      if rstrip v = [] then (if isPySpace c then [] else [c]) else c :: rstrip v := by
  by_cases hv : v.reverse.dropWhile isPySpace = []
  · have h1 : rstrip v = [] := by simp [rstrip, hv]
    rw [if_pos h1]
    unfold rstrip
    rw [List.reverse_cons, List.dropWhile_append]
    simp only [hv, List.isEmpty_nil, if_true]
    by_cases hc : isPySpace c <;> simp [List.dropWhile, hc]
  · have h1 : ¬ rstrip v = [] := by simpa [rstrip] using hv
    rw [if_neg h1]
    unfold rstrip
    rw [List.reverse_cons, List.dropWhile_append]
    have hne : (v.reverse.dropWhile isPySpace).isEmpty = false := by
      simpa [List.isEmpty_iff] using hv
    simp [hne]

theorem lstrip_cons_of_space {c : Char} (v : List Char) (hc : isPySpace c = true) :
    lstrip (c :: v) = lstrip v := by
  simp [lstrip, List.dropWhile_cons, hc]

theorem lstrip_cons_of_not_space {c : Char} (v : List Char) (hc : isPySpace c = false) :
    lstrip (c :: v) = c :: v := by
  simp [lstrip, List.dropWhile_cons, hc]

theorem lstrip_rstrip_comm (s : List Char) : lstrip (rstrip s) = rstrip (lstrip s) := by
  induction s with
  | nil => rfl
  | cons c v ih =>
    rw [rstrip_cons]
    by_cases hc : isPySpace c
    · have hl : lstrip (c :: v) = lstrip v := lstrip_cons_of_space v hc
      by_cases hv : rstrip v = []
      · rw [if_pos hv, if_pos hc, hl, ← ih, hv]
      · rw [if_neg hv, hl, lstrip_cons_of_space _ hc, ih]
    · have hcf : isPySpace c = false := by simpa using hc
      have hl : lstrip (c :: v) = c :: v := lstrip_cons_of_not_space v hcf
      by_cases hv : rstrip v = []
      · rw [if_pos hv, if_neg hc, hl, rstrip_cons, if_pos hv, if_neg hc,
          lstrip_cons_of_not_space _ hcf]
      · rw [if_neg hv, hl, rstrip_cons, if_neg hv, lstrip_cons_of_not_space _ hcf]

theorem rstrip_rstrip (s : List Char) : rstrip (rstrip s) = rstrip s := by
  unfold rstrip
  rw [List.reverse_reverse, dropWhile_self]

theorem strip_rstrip (v : List Char) : strip (rstrip v) = strip v := by
  unfold strip
  rw [lstrip_rstrip_comm, rstrip_rstrip]

theorem splitOnChar_of_not_mem (sep : Char) (l : List Char)
    (h : ∀ c ∈ l, ¬ c = sep) : splitOnChar sep l = [l] := by
  induction l with
  | nil => rfl
  | cons x xs ih =>
    have hx : (x == sep) = false := by
      simpa using h x (List.mem_cons_self x xs)
    have hxs : splitOnChar sep xs = [xs] :=
      ih fun c hc => h c (List.mem_cons_of_mem x hc)
    simp [splitOnChar, hx, hxs]

/-- C9: a segment consisting of `=` followed by a value is not skipped: the
parser maps the empty-string key to the trimmed value. -/
theorem c9_empty_key_kept (v : List Char) (h : ¬ ',' ∈ v) :
    backend.parse_resource_attributes ('=' :: v) = [([], strip v)] := by
  unfold backend.parse_resource_attributes
  rw [if_neg (by simp)]
  rw [splitOnChar_of_not_mem ',' ('=' :: v) (by
    intro c hc
    rcases List.mem_cons.mp hc with h1 | h2
    · subst h1; decide
    · intro he; subst he; exact h h2)]
  show backend.parseStep [] ('=' :: v) = _
  have hstrip : strip ('=' :: v) = '=' :: rstrip v := by
    unfold strip
    rw [lstrip_cons_of_not_space v (by decide), rstrip_cons]
    by_cases hv : rstrip v = [] <;> simp [hv, isPySpace]
  unfold backend.parseStep
  rw [hstrip]
  have hcont : containsChar '=' ('=' :: rstrip v) = true := by simp [containsChar]
  have hsf : splitFirst '=' ('=' :: rstrip v) = some ([], rstrip v) := by
    simp [splitFirst]
  simp only [hcont, Bool.not_true, Bool.or_false, List.isEmpty_cons, hsf]
  show dictInsert [] (strip []) (strip (rstrip v)) = [([], strip v)]
  rw [strip_rstrip]
  rfl

/-- Witness for C9 at the spec's own example input `"=v"`. -/
theorem c9_empty_key_kept_w :
    backend.parse_resource_attributes ('=' :: chars "v") = [([], strip (chars "v"))] :=
  c9_empty_key_kept (chars "v") (by decide)

/-- A JSON-safe scalar value, the value type of `record.__dict__` entries and
of the payload built by `JsonFormatter.format`. -/
inductive JVal where
  | jnull
  | jbool (b : Bool)
  | jint (n : Int)
  | jstr (s : List Char)
deriving DecidableEq

/-- Python's `str()` rendering of a scalar, as an f-string interpolates it. -/
def pyStr : JVal → List Char
  | .jstr s => s
  | .jint n =>
    if n < 0 then '-' :: Nat.toDigits 10 n.natAbs else Nat.toDigits 10 n.toNat
  | .jbool true => chars "True"
  | .jbool false => chars "False"
  | .jnull => chars "None"

/-- Python truthiness of a scalar, as used by the `or` in
`getattr(record, "otelServiceName", "") or os.getenv(...)`. -/
def jTruthy : JVal → Bool
  | .jnull => false
  | .jbool b => b
  | .jint n => !(n == 0)
  | .jstr s => !s.isEmpty

/-- The whole-second civil time fields of a `time.struct_time`, the value
`logging.Formatter.formatTime` obtains from `time.localtime(record.created)`.
A `struct_time` has no sub-second field: the fractional part of
`record.created` is discarded by the conversion. -/
structure Tm where
  tm_year : Nat
  tm_mon : Nat
  tm_mday : Nat
  tm_hour : Nat
  tm_min : Nat
  tm_sec : Nat
deriving DecidableEq

/-- Decimal rendering zero-padded on the left to width `w`. -/
def padZero (w : Nat) (n : Nat) : List Char :=
  let d := Nat.toDigits 10 n
  List.replicate (w - d.length) '0' ++ d

/-- Model of `time.strftime` (CPython on glibc/Linux) restricted to the directives the
formatter's date format uses. `%f` is not a directive `time.strftime`
supports (it belongs to `datetime.strftime`); glibc's `strftime` copies an
unknown directive through verbatim, so `%f` stays as the literal two
characters `%f`. -/
def strfChars (t : Tm) : List Char → List Char
  | [] => []
  | '%' :: c :: rest =>
    (match c with
     | 'Y' => padZero 4 t.tm_year
     | 'm' => padZero 2 t.tm_mon
     | 'd' => padZero 2 t.tm_mday
     | 'H' => padZero 2 t.tm_hour
     | 'M' => padZero 2 t.tm_min
     | 'S' => padZero 2 t.tm_sec
     | c => ['%', c]) ++ strfChars t rest
  | c :: rest => c :: strfChars t rest

/-- Model of `self.formatTime(record, datefmt="%Y-%m-%dT%H:%M:%S.%fZ")`:
`logging.Formatter.formatTime` converts `record.created` with
`time.localtime` (dropping the sub-second part) and renders the given date
format with `time.strftime`. -/
def formatTime (t : Tm) : List Char := strfChars t (chars "%Y-%m-%dT%H:%M:%S.%fZ")

/-- The process-wide ambient pieces read by `JsonFormatter.format`:
`os.environ.get("OTEL_SERVICE_NAME")`, `os.environ.get("HOSTNAME")`, and the
startup constant `RESOURCE_ATTRS` (the parsed `OTEL_RESOURCE_ATTRIBUTES`). -/
structure Env where
  serviceNameVar : Option (List Char)
  hostnameVar : Option (List Char)
  resourceAttrs : List (List Char × List Char)

/-- One in-flight `logging.LogRecord` as the formatter consumes it:
`dict` is `record.__dict__` in insertion order; `levelname`, `name` and
`msgText` (the `record.getMessage()` result) are the attributes the fixed
fields read; `ctime`/`micro` split `record.created` into the whole-second
civil time and the microsecond remainder (the latter is unreachable from
`formatTime`, which only sees the `struct_time`). -/
structure LogRecord where
  levelname : List Char
  name : List Char
  msgText : List Char
  ctime : Tm
  micro : Nat
  dict : List (List Char × JVal)

/-- Python's `getattr(record, k, default)` over the record's `__dict__`. -/
def getattrJ (d : List (List Char × JVal)) (k : List Char) (dv : JVal) : JVal :=
  (List.lookup k d).getD dv

/-- Python's `d.get(k, default)` on a string-valued dict. -/
def alGetD (d : List (List Char × List Char)) (k dv : List Char) : List Char :=
  (List.lookup k d).getD dv

/-- The expression `getattr(record, "otelServiceName", "") or os.getenv("OTEL_SERVICE_NAME", dflt)`:
the per-event override when it is truthy, else the static process name. -/
def serviceNameOf (dflt : List Char) (env : Env) (r : LogRecord) : JVal :=
  let v := getattrJ r.dict (chars "otelServiceName") (.jstr [])
  if jTruthy v then v else .jstr (env.serviceNameVar.getD dflt)

/-- The twelve fixed payload keys, in the order the payload dict literal
lists them. -/
def FIXED : List (List Char) :=
  [chars "@timestamp", chars "log.level", chars "message", chars "logger.name",
   chars "trace.id", chars "span.id", chars "service.name", chars "service.version",
   chars "service.namespace", chars "deployment.environment", chars "host.name",
   chars "event.dataset"]

/-- The denylist of standard `LogRecord` bookkeeping attributes the extension
loop skips. -/
def EXCLUDED : List (List Char) :=
  [chars "args", chars "msg", chars "levelname", chars "levelno", chars "pathname",
   chars "filename", chars "module", chars "exc_info", chars "exc_text",
   chars "stack_info", chars "lineno", chars "funcName", chars "created",
   chars "msecs", chars "relativeCreated", chars "thread", chars "threadName",
   chars "processName", chars "process"]

/-- The `payload = { ... }` dict literal of `JsonFormatter.format`
(src/app/src/backend/main.py lines 80-93; the frontend copy differs only in
the `dflt` literal). -/
def fixedFields (dflt : List Char) (env : Env) (r : LogRecord) : List (List Char × JVal) :=
  [(chars "@timestamp", .jstr (formatTime r.ctime)),
   (chars "log.level", .jstr r.levelname),
   (chars "message", .jstr r.msgText),
   (chars "logger.name", .jstr r.name),
   (chars "trace.id", getattrJ r.dict (chars "otelTraceID") (.jstr [])),
   (chars "span.id", getattrJ r.dict (chars "otelSpanID") (.jstr [])),
   (chars "service.name", serviceNameOf dflt env r),
   (chars "service.version", .jstr (alGetD env.resourceAttrs (chars "service.version") [])),
   (chars "service.namespace", .jstr (alGetD env.resourceAttrs (chars "service.namespace") [])),
   (chars "deployment.environment",
     .jstr (alGetD env.resourceAttrs (chars "deployment.environment") [])),
   (chars "host.name", .jstr (env.hostnameVar.getD [])),
   (chars "event.dataset", .jstr (pyStr (serviceNameOf dflt env r) ++ chars ".log"))]

/-- The `for key, value in record.__dict__.items()` loop of
`JsonFormatter.format`: a key already in the payload or starting with
`otel` is skipped, a denylisted bookkeeping key is skipped, anything else is
appended to the payload with its value unchanged. -/
def mergeExt (payload : List (List Char × JVal)) :
    List (List Char × JVal) → List (List Char × JVal)
  | [] => payload
  | (k, v) :: rest =>
    if payload.any (fun p => p.1 == k) || (chars "otel").isPrefixOf k then
      mergeExt payload rest
    else if EXCLUDED.contains k then
      mergeExt payload rest
    else
      mergeExt (payload ++ [(k, v)]) rest

/-- The method `JsonFormatter.format` (backend lines 78-102, frontend lines 76-100):
the payload mapping handed to `json.dumps`.  `dflt` is the service-name
literal baked into each copy (`"backend"` resp. `"frontend"`). -/
def JsonFormatter.format (dflt : List Char) (env : Env) (r : LogRecord) :
    List (List Char × JVal) :=
  mergeExt (fixedFields dflt env r) r.dict

/-- The backend's formatter. -/
def backendFormat : Env → LogRecord → List (List Char × JVal) :=
  JsonFormatter.format (chars "backend")

/-- The frontend's formatter. -/
def frontendFormat : Env → LogRecord → List (List Char × JVal) :=
  JsonFormatter.format (chars "frontend")

theorem fixedFields_keys (dflt : List Char) (env : Env) (r : LogRecord) :
    (fixedFields dflt env r).map Prod.fst = FIXED := rfl

theorem FIXED_nodup : FIXED.Nodup := by decide

theorem count_eq_one_of_nodup_mem {α : Type} [BEq α] [LawfulBEq α] {l : List α} {a : α}
    (h : l.Nodup) (hm : a ∈ l) : l.count a = 1 := by
  induction l with
  | nil => simp at hm
  | cons b t ih =>
    rcases List.mem_cons.mp hm with h1 | h2
    · subst h1
      have hnotin : a ∉ t := (List.nodup_cons.mp h).1
      rw [List.count_cons]
      simp [List.count_eq_zero.mpr hnotin]
    · have hne : ¬ a = b := by
        intro he; subst he
        exact (List.nodup_cons.mp h).1 h2
      rw [List.count_cons]
      simp [hne, ih (List.nodup_cons.mp h).2 h2]
      exact fun he => hne he.symm

theorem lookup_append_of_mem {α β : Type} [BEq α] [LawfulBEq α] (k : α)
    (l₁ l₂ : List (α × β)) (h : k ∈ l₁.map Prod.fst) :
    List.lookup k (l₁ ++ l₂) = List.lookup k l₁ := by
  induction l₁ with
  | nil => simp at h
  | cons x xs ih =>
    by_cases hx : k == x.1
    · obtain ⟨k', v'⟩ := x
      simp [List.lookup, hx]
    · obtain ⟨k', v'⟩ := x
      have hk : k ∈ xs.map Prod.fst := by
        rcases List.mem_cons.mp h with h1 | h2
        · exact absurd h1 (by simpa using hx)
        · exact h2
      simp only [List.cons_append, List.lookup, hx]
      exact ih hk

/-- A key already present among the payload keys is untouched by the
extension-merging loop: its value and its single occurrence survive. -/
theorem mergeExt_of_mem (ds : List (List Char × JVal))
    (payload : List (List Char × JVal)) (k : List Char)
    (hk : k ∈ payload.map Prod.fst) :
    List.lookup k (mergeExt payload ds) = List.lookup k payload ∧
      ((mergeExt payload ds).map Prod.fst).count k = (payload.map Prod.fst).count k := by
  induction ds generalizing payload with
  | nil => exact ⟨rfl, rfl⟩
  | cons x rest ih =>
    obtain ⟨k', v'⟩ := x
    by_cases h1 : payload.any (fun p => p.1 == k') || (chars "otel").isPrefixOf k'
    · simp only [mergeExt, h1, if_true]
      exact ih payload hk
    · by_cases h2 : EXCLUDED.contains k'
      · simp only [mergeExt, h1, Bool.false_eq_true, if_false, h2, if_true]
        exact ih payload hk
      · simp only [mergeExt, h1, Bool.false_eq_true, if_false, h2]
        have hany : payload.any (fun p => p.1 == k') = false := by
          cases hb : payload.any (fun p => p.1 == k') with
          | false => rfl
          | true => exact absurd (by simp [hb]) h1
        have hk'notin : k' ∉ payload.map Prod.fst := by
          intro hmem
          obtain ⟨p, hp, hpe⟩ := List.mem_map.mp hmem
          have := List.any_eq_false.mp hany p hp
          simp [hpe] at this
        have hkne : ¬ k' = k := fun he => hk'notin (he ▸ hk)
        have hmem' : k ∈ (payload ++ [(k', v')]).map Prod.fst := by
          simp only [List.map_append]
          exact List.mem_append_left _ hk
        have hres := ih (payload ++ [(k', v')]) hmem'
        refine ⟨hres.1.trans ?_, hres.2.trans ?_⟩
        · exact lookup_append_of_mem k payload [(k', v')] hk
        · have hke : (k == k') = false := by
            simpa using fun he : k = k' => hkne he.symm
          have h0 : List.count k [k'] = 0 := by
            simp [List.count_cons, hke]
            exact hkne
          simp only [List.map_append, List.count_append, List.map_cons, List.map_nil,
            h0, Nat.add_zero]

/-- C1: an extension attribute whose key equals one of the twelve fixed field
names never overwrites the fixed field: the payload keeps the computed fixed
value at that key, and the key occurs exactly once (the colliding extension
entry is dropped). -/
theorem c1_fixed_never_overwritten (dflt : List Char) (env : Env) (r : LogRecord)
    (k : List Char) (v : JVal) (hk : k ∈ FIXED) (_hv : (k, v) ∈ r.dict) :
    List.lookup k (JsonFormatter.format dflt env r) = List.lookup k (fixedFields dflt env r)
      ∧ ((JsonFormatter.format dflt env r).map Prod.fst).count k = 1 := by
  have hmem : k ∈ (fixedFields dflt env r).map Prod.fst := by
    rw [fixedFields_keys]; exact hk
  have h := mergeExt_of_mem r.dict (fixedFields dflt env r) k hmem
  refine ⟨h.1, h.2.trans ?_⟩
  rw [fixedFields_keys]
  exact count_eq_one_of_nodup_mem FIXED_nodup hk

/-- Concrete environment for the C1 witness. -/
def env1 : Env := ⟨none, none, []⟩

/-- Concrete record for the C1 witness: the caller supplies an extension
attribute colliding with the fixed key `service.name`. -/
def rec1 : LogRecord :=
  ⟨chars "INFO", chars "backend", chars "hello", ⟨2026, 1, 2, 3, 4, 5⟩, 0,
   [(chars "service.name", .jstr (chars "evil"))]⟩

/-- Witness for C1 at a record whose `__dict__` collides with
`service.name`. -/
theorem c1_fixed_never_overwritten_w :
    List.lookup (chars "service.name") (JsonFormatter.format (chars "backend") env1 rec1)
        = List.lookup (chars "service.name") (fixedFields (chars "backend") env1 rec1)
      ∧ ((JsonFormatter.format (chars "backend") env1 rec1).map Prod.fst).count
          (chars "service.name") = 1 :=
  c1_fixed_never_overwritten (chars "backend") env1 rec1 (chars "service.name")
    (.jstr (chars "evil")) (by decide) (by decide)

/-- C3: `event.dataset` is always the `str()` rendering of the record's
`service.name` value followed by `.log`, also when the service name is
overridden per event, and independently of any caller-supplied
`event.dataset` attribute (the statement holds for every record, including
those whose `__dict__` carries an `event.dataset` key). -/
theorem c3_event_dataset_derived (dflt : List Char) (env : Env) (r : LogRecord) :
    List.lookup (chars "service.name") (JsonFormatter.format dflt env r)
        = some (serviceNameOf dflt env r)
      ∧ List.lookup (chars "event.dataset") (JsonFormatter.format dflt env r)
        = some (.jstr (pyStr (serviceNameOf dflt env r) ++ chars ".log")) := by
  have h1 := (mergeExt_of_mem r.dict (fixedFields dflt env r) (chars "service.name")
    (by rw [fixedFields_keys]; decide)).1
  have h2 := (mergeExt_of_mem r.dict (fixedFields dflt env r) (chars "event.dataset")
    (by rw [fixedFields_keys]; decide)).1
  exact ⟨h1.trans rfl, h2.trans rfl⟩

/-- Concrete environment for the C5 evidence. -/
def env5 : Env := ⟨none, none, []⟩

/-- Concrete record family for the C5 evidence, varying only in the
microsecond part of `record.created`. -/
def rec5 (micro : Nat) : LogRecord :=
  ⟨chars "INFO", chars "backend", chars "slow request", ⟨2026, 1, 2, 3, 4, 5⟩, micro, []⟩

/-- C5 evidence (code bug): the `@timestamp` the formatter renders is NOT a
microsecond-precision timestamp.  `formatTime` goes through a
`time.struct_time`, which holds whole seconds only, so the output is
identical for any two events differing only in microseconds; and because
`%f` is not a `time.strftime` directive, the rendered string carries the
literal characters `%f` where the spec expects the microsecond digits. -/
theorem c5_timestamp_not_microsecond :
    (∀ m₁ m₂ : Nat, JsonFormatter.format (chars "backend") env5 (rec5 m₁)
        = JsonFormatter.format (chars "backend") env5 (rec5 m₂))
    ∧ List.lookup (chars "@timestamp")
        (JsonFormatter.format (chars "backend") env5 (rec5 250000))
        = some (.jstr (chars "2026-01-02T03:04:05.%fZ")) :=
  ⟨fun _ _ => rfl, by decide⟩

/-- C7: when the tracing instrumentation put no `otelTraceID`/`otelSpanID`
attributes on the record, the output's `trace.id` and `span.id` are exactly
the empty string. -/
theorem c7_no_trace_empty_ids (dflt : List Char) (env : Env) (r : LogRecord)
    (h1 : List.lookup (chars "otelTraceID") r.dict = none)
    (h2 : List.lookup (chars "otelSpanID") r.dict = none) :
    List.lookup (chars "trace.id") (JsonFormatter.format dflt env r) = some (.jstr [])
      ∧ List.lookup (chars "span.id") (JsonFormatter.format dflt env r) = some (.jstr []) := by
  have ha := (mergeExt_of_mem r.dict (fixedFields dflt env r) (chars "trace.id")
    (by rw [fixedFields_keys]; decide)).1
  have hb := (mergeExt_of_mem r.dict (fixedFields dflt env r) (chars "span.id")
    (by rw [fixedFields_keys]; decide)).1
  constructor
  · refine ha.trans ?_
    show some (getattrJ r.dict (chars "otelTraceID") (.jstr [])) = _
    rw [getattrJ, h1]
    rfl
  · refine hb.trans ?_
    show some (getattrJ r.dict (chars "otelSpanID") (.jstr [])) = _
    rw [getattrJ, h2]
    rfl

/-- Concrete environment for the C7 witness. -/
def env7 : Env := ⟨some (chars "backend"), some (chars "host-1"), []⟩

/-- Concrete record for the C7 witness: no `otel*` attributes present. -/
def rec7 : LogRecord :=
  ⟨chars "WARNING", chars "backend", chars "item not found", ⟨2026, 1, 2, 3, 4, 5⟩, 0,
   [(chars "key", .jstr (chars "alpha"))]⟩

/-- Witness for C7 at a record with no trace context. -/
theorem c7_no_trace_empty_ids_w :
    List.lookup (chars "trace.id") (JsonFormatter.format (chars "backend") env7 rec7)
        = some (.jstr [])
      ∧ List.lookup (chars "span.id") (JsonFormatter.format (chars "backend") env7 rec7)
        = some (.jstr []) :=
  c7_no_trace_empty_ids (chars "backend") env7 rec7 (by decide) (by decide)

/-- Concrete environment for the C8 counterexample. -/
def env8 : Env := ⟨none, none, []⟩

/-- Concrete record for the C8 counterexample: the caller supplies the
per-event override `otelServiceName = ""`. -/
def rec8 : LogRecord :=
  ⟨chars "INFO", chars "backend", chars "hi", ⟨2026, 1, 2, 3, 4, 5⟩, 0,
   [(chars "otelServiceName", .jstr [])]⟩

/-- C8 counterexample: a caller-supplied (empty-string) override is NOT used:
the record's `service.name` is the static process default, not the supplied
override, refuting the claim that the override wins whenever the caller
supplied one. -/
theorem c8_counterexample :
    List.lookup (chars "otelServiceName") rec8.dict = some (.jstr [])
      ∧ List.lookup (chars "service.name") (JsonFormatter.format (chars "backend") env8 rec8)
          = some (.jstr (chars "backend"))
      ∧ JVal.jstr (chars "backend") ≠ JVal.jstr [] :=
  ⟨by decide, by decide, by decide⟩

/-- C8 as amended: `service.name` is the per-event `otelServiceName` override
when the caller supplied a truthy (in particular, non-empty-string) one;
when the override is absent or falsy (e.g. the empty string), it is the
static process service name from the environment. -/
theorem c8_service_name_precedence (dflt : List Char) (env : Env) (r : LogRecord) :
    List.lookup (chars "service.name") (JsonFormatter.format dflt env r)
        = some (serviceNameOf dflt env r)
      ∧ (∀ v, List.lookup (chars "otelServiceName") r.dict = some v → jTruthy v = true →
          serviceNameOf dflt env r = v)
      ∧ (∀ v, List.lookup (chars "otelServiceName") r.dict = some v → jTruthy v = false →
          serviceNameOf dflt env r = .jstr (env.serviceNameVar.getD dflt))
      ∧ (List.lookup (chars "otelServiceName") r.dict = none →
          serviceNameOf dflt env r = .jstr (env.serviceNameVar.getD dflt)) := by
  refine ⟨?_, ?_, ?_, ?_⟩
  · exact ((mergeExt_of_mem r.dict (fixedFields dflt env r) (chars "service.name")
      (by rw [fixedFields_keys]; decide)).1).trans rfl
  · intro v hv ht
    rw [serviceNameOf, getattrJ, hv]
    simp [ht]
  · intro v hv ht
    rw [serviceNameOf, getattrJ, hv]
    simp [ht]
  · intro hv
    rw [serviceNameOf, getattrJ, hv]
    rfl

/-- Concrete environment for the C8 amended-claim witness. -/
def env8w : Env := ⟨none, none, []⟩

/-- Concrete record for the C8 amended-claim witness: a truthy per-event
override is supplied. -/
def rec8w : LogRecord :=
  ⟨chars "INFO", chars "backend", chars "hi", ⟨2026, 1, 2, 3, 4, 5⟩, 0,
   [(chars "otelServiceName", .jstr (chars "svc"))]⟩

/-- Witness for the amended C8: the truthy override is taken verbatim. -/
theorem c8_service_name_precedence_w :
    serviceNameOf (chars "backend") env8w rec8w = .jstr (chars "svc") :=
  (c8_service_name_precedence (chars "backend") env8w rec8w).2.1
    (.jstr (chars "svc")) (by decide) (by decide)

theorem beq_symm {α : Type} [BEq α] [LawfulBEq α] (a b : α) : (a == b) = (b == a) := by
  by_cases h : a = b
  · subst h; rfl
  · have h1 : (a == b) = false := by simpa using h
    have h2 : (b == a) = false := by simpa using fun e : b = a => h e.symm
    rw [h1, h2]

theorem any_eq_contains (payload : List (List Char × JVal)) (k : List Char) :
    payload.any (fun p => p.1 == k) = (payload.map Prod.fst).contains k := by
  induction payload with
  | nil => rfl
  | cons x xs ih =>
    simp only [List.any_cons, List.map_cons, List.contains_cons, ih]
    rw [beq_symm k x.1]

theorem contains_append {α : Type} [BEq α] (l₁ l₂ : List α) (a : α) :
    (l₁ ++ l₂).contains a = (l₁.contains a || l₂.contains a) := by
  induction l₁ with
  | nil => simp [List.contains]
  | cons x xs ih =>
    simp only [List.cons_append, List.contains_cons, ih, Bool.or_assoc]

/-- Key inventory of the extension-merging loop: starting from a payload with
key-distinct extension input, the final key list is the payload's keys
followed, in order, by exactly those input keys that do not collide with a
payload key, do not start with `otel`, and are not denylisted. -/
theorem mergeExt_keys (ds : List (List Char × JVal))
    (payload : List (List Char × JVal)) (hnd : (ds.map Prod.fst).Nodup) :
    (mergeExt payload ds).map Prod.fst =
      payload.map Prod.fst ++
        (ds.map Prod.fst).filter (fun k =>
          !(payload.map Prod.fst).contains k && !(chars "otel").isPrefixOf k
            && !EXCLUDED.contains k) := by
  induction ds generalizing payload with
  | nil => rw [List.map_nil, List.filter_nil, List.append_nil]; rfl
  | cons x rest ih =>
    obtain ⟨k', v'⟩ := x
    simp only [List.map_cons] at hnd ⊢
    have hnd' : (rest.map Prod.fst).Nodup := (List.nodup_cons.mp hnd).2
    have hknotin : k' ∉ rest.map Prod.fst := (List.nodup_cons.mp hnd).1
    rw [List.filter_cons]
    by_cases h1 : payload.any (fun p => p.1 == k') || (chars "otel").isPrefixOf k'
    · have hcond : (!(payload.map Prod.fst).contains k' && !(chars "otel").isPrefixOf k'
          && !EXCLUDED.contains k') = false := by
        rw [← any_eq_contains]
        cases ha : payload.any (fun p => p.1 == k') with
        | true => rfl
        | false =>
          cases ho : (chars "otel").isPrefixOf k' with
          | true => rfl
          | false => rw [ha, ho] at h1; simp at h1
      rw [hcond]
      simp only [mergeExt, h1, if_true, Bool.false_eq_true, if_false]
      exact ih payload hnd'
    · have hP : (payload.any (fun p => p.1 == k')
          || (chars "otel").isPrefixOf k') = false := Bool.eq_false_iff.mpr h1
      have hanyf : payload.any (fun p => p.1 == k') = false := by
        cases ha : payload.any (fun p => p.1 == k') with
        | false => rfl
        | true => rw [ha, Bool.true_or] at hP; exact hP
      have hotelf : (chars "otel").isPrefixOf k' = false := by
        cases ho : (chars "otel").isPrefixOf k' with
        | false => rfl
        | true => rw [ho, Bool.or_true] at hP; exact hP
      by_cases h2 : EXCLUDED.contains k'
      · have h2t : EXCLUDED.contains k' = true := h2
        have hcond : (!(payload.map Prod.fst).contains k' && !(chars "otel").isPrefixOf k'
            && !EXCLUDED.contains k') = false := by
          rw [h2t, Bool.not_true, Bool.and_false]
        rw [hcond]
        simp only [mergeExt, h1, Bool.false_eq_true, if_false, h2t, if_true]
        exact ih payload hnd'
      · have h2f : EXCLUDED.contains k' = false := Bool.eq_false_iff.mpr h2
        have hcond : (!(payload.map Prod.fst).contains k' && !(chars "otel").isPrefixOf k'
            && !EXCLUDED.contains k') = true := by
          rw [← any_eq_contains, hanyf, hotelf, h2f]
          rfl
        rw [hcond]
        simp only [mergeExt, h1, Bool.false_eq_true, if_false, h2f, if_true]
        rw [ih (payload ++ [(k', v')]) hnd']
        simp only [List.map_append, List.map_cons, List.map_nil]
        rw [List.append_assoc]
        congr 1
        rw [List.singleton_append]
        congr 1
        apply List.filter_congr
        intro x hx
        have hxk : ¬ x = k' := fun he => hknotin (he ▸ hx)
        have hsing : List.contains [k'] x = false := by
          cases hb : List.contains [k'] x with
          | false => rfl
          | true =>
            have : x ∈ [k'] := List.elem_iff.mp hb
            rcases List.mem_singleton.mp this with h
            exact absurd h hxk
        have hck : (payload.map Prod.fst ++ [k']).contains x
            = (payload.map Prod.fst).contains x := by
          rw [contains_append, hsing, Bool.or_false]
        rw [hck]

/-- C2: the payload mapping `JsonFormatter.format` hands to `json.dumps` has
pairwise-distinct keys (so serializing it and parsing the JSON text back
reproduces the mapping unchanged); its fixed-field key subset is exactly the
twelve defined keys, and its extension keys are exactly the record's
attribute keys minus the `otel`-reserved, denylisted and
fixed-field-colliding ones. -/
theorem c2_round_trip (dflt : List Char) (env : Env) (r : LogRecord)
    (hnd : (r.dict.map Prod.fst).Nodup) :
    ((JsonFormatter.format dflt env r).map Prod.fst).Nodup
      ∧ ((JsonFormatter.format dflt env r).map Prod.fst).filter
          (fun k => FIXED.contains k) = FIXED
      ∧ ((JsonFormatter.format dflt env r).map Prod.fst).filter
          (fun k => !FIXED.contains k) =
        (r.dict.map Prod.fst).filter (fun k =>
          !FIXED.contains k && !(chars "otel").isPrefixOf k
            && !EXCLUDED.contains k) := by
  have hkeys := mergeExt_keys r.dict (fixedFields dflt env r) hnd
  rw [fixedFields_keys] at hkeys
  have hfmt : (JsonFormatter.format dflt env r).map Prod.fst =
      FIXED ++ (r.dict.map Prod.fst).filter (fun k =>
        !FIXED.contains k && !(chars "otel").isPrefixOf k && !EXCLUDED.contains k) := hkeys
  have hextmem : ∀ x ∈ (r.dict.map Prod.fst).filter (fun k =>
      !FIXED.contains k && !(chars "otel").isPrefixOf k && !EXCLUDED.contains k),
      FIXED.contains x = false := by
    intro x hx
    have := List.of_mem_filter hx
    cases hb : FIXED.contains x with
    | false => rfl
    | true =>
      rw [hb] at this
      simp at this
  refine ⟨?_, ?_, ?_⟩
  · rw [hfmt]
    refine List.Nodup.append FIXED_nodup (hnd.filter _) ?_
    intro a ha hmem
    have := hextmem a hmem
    have hc : FIXED.contains a = true := List.elem_iff.mpr ha
    rw [this] at hc
    exact Bool.noConfusion hc
  · rw [hfmt, List.filter_append]
    have h1 : FIXED.filter (fun k => FIXED.contains k) = FIXED := by decide
    have h2 : ((r.dict.map Prod.fst).filter (fun k =>
        !FIXED.contains k && !(chars "otel").isPrefixOf k
          && !EXCLUDED.contains k)).filter (fun k => FIXED.contains k) = [] := by
      rw [List.filter_eq_nil_iff]
      intro a ha
      rw [hextmem a ha]
      exact Bool.noConfusion
    rw [h1, h2, List.append_nil]
  · rw [hfmt, List.filter_append]
    have h1 : FIXED.filter (fun k => !FIXED.contains k) = [] := by decide
    have h2 : ((r.dict.map Prod.fst).filter (fun k =>
        !FIXED.contains k && !(chars "otel").isPrefixOf k
          && !EXCLUDED.contains k)).filter (fun k => !FIXED.contains k) =
        (r.dict.map Prod.fst).filter (fun k =>
          !FIXED.contains k && !(chars "otel").isPrefixOf k
            && !EXCLUDED.contains k) := by
      rw [List.filter_eq_self]
      intro a ha
      rw [hextmem a ha]
      rfl
    rw [h1, h2, List.nil_append]

/-- Concrete environment for the C2 witness. -/
def env2 : Env := ⟨some (chars "backend"), some (chars "host-1"),
  [(chars "deployment.environment", chars "prod")]⟩

/-- Concrete record for the C2 witness: a mix of ordinary extension
attributes, an `otel`-reserved key, a denylisted key, and a fixed-field
collision. -/
def rec2 : LogRecord :=
  ⟨chars "INFO", chars "backend", chars "item fetched", ⟨2026, 1, 2, 3, 4, 5⟩, 0,
   [(chars "hits", .jint 5), (chars "otelTraceID", .jstr (chars "abc123")),
    (chars "lineno", .jint 42), (chars "service.name", .jstr (chars "x")),
    (chars "latency_ms", .jint 7)]⟩

/-- Witness for C2 at a record exercising all three exclusion reasons. -/
theorem c2_round_trip_w :
    ((JsonFormatter.format (chars "backend") env2 rec2).map Prod.fst).Nodup
      ∧ ((JsonFormatter.format (chars "backend") env2 rec2).map Prod.fst).filter
          (fun k => FIXED.contains k) = FIXED
      ∧ ((JsonFormatter.format (chars "backend") env2 rec2).map Prod.fst).filter
          (fun k => !FIXED.contains k) =
        (rec2.dict.map Prod.fst).filter (fun k =>
          !FIXED.contains k && !(chars "otel").isPrefixOf k
            && !EXCLUDED.contains k) :=
  c2_round_trip (chars "backend") env2 rec2 (by decide)
